import Mathlib

/- Verification model of the new_curl HTTP(S) client core: the URL
   parser and normalizer of include/url_parser.h and the request
   pipeline of src/http.c (request builder, response parser, socket
   and TLS lifecycle).  C strings are modelled as lists of characters
   (no terminating NUL; inputs are assumed NUL-free).  Machine
   integers are modelled as Nat/Int: every concrete value involved
   stays well inside the int range, so no wrap-around is modelled.
   Heap allocations made by the parser are assumed to succeed; the
   allocation of the 8192-byte receive buffer and of the response
   struct, whose failure paths the pipeline handles explicitly, are
   driven by explicit environment flags.  Results of external calls
   (socket, inet_pton, connect, SSL_CTX_new, SSL_connect, recv) are
   oracles supplied by the same environment, so theorems quantify
   over every combination of success and failure. -/

abbrev CStr := List Char

/-- Model of C isdigit restricted to the ASCII digits 48..57. -/
def isDigitC (c : Char) : Bool := 48 ≤ c.toNat && c.toNat ≤ 57

/-- Model of C isspace: space, tab, newline, vertical tab, form feed, carriage return. -/
def isSpaceC (c : Char) : Bool :=
  c.toNat = 32 || c.toNat = 9 || c.toNat = 10 || c.toNat = 11 || c.toNat = 12 || c.toNat = 13

def digitVal (c : Char) : Nat := c.toNat - 48

def digitChar (n : Nat) : Char := Char.ofNat (48 + n)

/-- Decimal digits of a natural number, most significant first:
    the characters printf "%d" emits for a nonnegative int.
    Fuel-structured so it reduces in the kernel. -/
def natDigitsF : Nat → Nat → CStr
  | 0, _ => []
  | f + 1, n => if n < 10 then [digitChar n] else natDigitsF f (n / 10) ++ [digitChar (n % 10)]

def natDigits (n : Nat) : CStr := natDigitsF (n + 1) n

theorem natDigitsF_eq_of_lt (n : Nat) : ∀ f, n < f → natDigitsF f n = natDigits n := by
  induction n using Nat.strong_induction_on with
  | _ n ih =>
    intro f hf
    match f, hf with
    | f' + 1, _ =>
      by_cases h10 : n < 10
      · simp [natDigitsF, natDigits, h10]
      · have hdiv : n / 10 < n := Nat.div_lt_self (by omega) (by omega)
        have h1 : natDigitsF f' (n / 10) = natDigits (n / 10) := ih _ hdiv _ (by omega)
        have h2 : natDigitsF n (n / 10) = natDigits (n / 10) := ih _ hdiv _ hdiv
        simp [natDigitsF, natDigits, h10, h1, h2]

theorem natDigits_lt10 (n : Nat) (h : n < 10) : natDigits n = [digitChar n] := by
  simp [natDigits, natDigitsF, h]

theorem natDigits_ge10 (n : Nat) (h : 10 ≤ n) : natDigits n = natDigits (n / 10) ++ [digitChar (n % 10)] := by
  have hd : n / 10 < n := Nat.div_lt_self (by omega) (by omega)
  show natDigitsF (n + 1) n = _
  rw [natDigitsF, if_neg (by omega), natDigitsF_eq_of_lt _ _ hd]

theorem digitChar_isDigit (n : Nat) (h : n < 10) : isDigitC (digitChar n) = true := by
  interval_cases n <;> decide

theorem digitVal_digitChar (n : Nat) (h : n < 10) : digitVal (digitChar n) = n := by
  interval_cases n <;> decide

def allDigits (s : CStr) : Bool := s.all isDigitC

theorem natDigits_allDigits (n : Nat) : allDigits (natDigits n) = true := by
  induction n using Nat.strong_induction_on with
  | _ n ih =>
    by_cases h : n < 10
    · rw [natDigits_lt10 n h]
      simp [allDigits, digitChar_isDigit n h]
    · rw [natDigits_ge10 n (by omega)]
      have h1 := ih (n / 10) (Nat.div_lt_self (by omega) (by omega))
      have h2 := digitChar_isDigit (n % 10) (Nat.mod_lt _ (by omega))
      simp [allDigits] at h1 ⊢
      exact ⟨h1, by simpa using h2⟩

theorem natDigits_ne_nil (n : Nat) : natDigits n ≠ [] := by
  by_cases h : n < 10
  · rw [natDigits_lt10 n h]; simp
  · rw [natDigits_ge10 n (by omega)]; simp

theorem mem_natDigits_isDigit {c : Char} {n : Nat} (h : c ∈ natDigits n) : isDigitC c = true := by
  have := natDigits_allDigits n
  simp [allDigits, List.all_eq_true] at this
  exact this c h

/-- One digit-run scanner step shared by the atoi and sscanf models. -/
def scanStep (a : Nat) (c : Char) : Nat := 10 * a + digitVal c

def scanNatGo (acc : Nat) : CStr → Nat × CStr
  | c :: rest => if isDigitC c then scanNatGo (scanStep acc c) rest else (acc, c :: rest)
  | [] => (acc, [])

/-- Greedy decimal-digit run: fails unless at least one digit is present
    (the behaviour of a %d conversion after whitespace and sign). -/
def scanNat : CStr → Option (Nat × CStr)
  | c :: rest => if isDigitC c then some (scanNatGo (digitVal c) rest) else none
  | [] => none

def scanIntCore : CStr → Option (Int × CStr)
  | [] => none
  | c :: rest =>
    if c = '-' then (scanNat rest).map (fun p => (-(p.1 : Int), p.2))
    else if c = '+' then (scanNat rest).map (fun p => ((p.1 : Int), p.2))
    else (scanNat (c :: rest)).map (fun p => ((p.1 : Int), p.2))

/-- A %d conversion: skip whitespace, optional sign, at least one digit. -/
def scanInt (s : CStr) : Option (Int × CStr) := scanIntCore (s.dropWhile isSpaceC)

/-- Model of C atoi: the value %d would parse, or 0 when nothing parses. -/
def atoi (s : CStr) : Int :=
  match scanInt s with
  | some p => p.1
  | none => 0

def headNotDigit : CStr → Bool
  | [] => true
  | c :: _ => !isDigitC c

theorem scanNatGo_digits (d : CStr) : ∀ (acc : Nat) (r : CStr), allDigits d = true → headNotDigit r = true →
    scanNatGo acc (d ++ r) = (List.foldl scanStep acc d, r) := by
  induction d with
  | nil =>
    intro acc r _ hr
    cases r with
    | nil => simp [scanNatGo]
    | cons c rest =>
      simp [headNotDigit] at hr
      simp [scanNatGo, hr]
  | cons c d' ih =>
    intro acc r hd hr
    simp [allDigits, List.all_cons] at hd
    have := ih (scanStep acc c) r (by simpa [allDigits, List.all_eq_true] using hd.2) hr
    simp [scanNatGo, hd.1, this]

theorem foldl_natDigits (n : Nat) : ∀ acc, List.foldl scanStep acc (natDigits n) = acc * 10 ^ (natDigits n).length + n := by
  induction n using Nat.strong_induction_on with
  | _ n ih =>
    intro acc
    by_cases h : n < 10
    · rw [natDigits_lt10 n h]
      simp [scanStep, digitVal_digitChar n h]
      ring
    · rw [natDigits_ge10 n (by omega)]
      have hdiv : n / 10 < n := Nat.div_lt_self (by omega) (by omega)
      rw [List.foldl_append, ih (n / 10) hdiv acc]
      have hm : digitVal (digitChar (n % 10)) = n % 10 := digitVal_digitChar _ (Nat.mod_lt _ (by omega))
      simp [scanStep, hm, List.length_append, pow_succ]
      have : 10 * (n / 10) + n % 10 = n := Nat.div_add_mod n 10
      ring_nf
      omega

theorem scanNat_natDigits (n : Nat) (r : CStr) (hr : headNotDigit r = true) :
    scanNat (natDigits n ++ r) = some (n, r) := by
  obtain ⟨c, t, hct⟩ : ∃ c t, natDigits n = c :: t := by
    cases hnd : natDigits n with
    | nil => exact absurd hnd (natDigits_ne_nil n)
    | cons c t => exact ⟨c, t, rfl⟩
  have hall := natDigits_allDigits n
  rw [hct] at hall
  simp [allDigits, List.all_cons] at hall
  have hgo := scanNatGo_digits t (digitVal c) r (by simpa [allDigits, List.all_eq_true] using hall.2) hr
  rw [hct]
  simp [scanNat, hall.1, hgo]
  have h1 : List.foldl scanStep 0 (natDigits n) = n := by
    have := foldl_natDigits n 0
    simpa using this
  rw [hct] at h1
  simp [List.foldl, scanStep] at h1
  simpa using h1

theorem isDigit_not_space {c : Char} (h : isDigitC c = true) : isSpaceC c = false := by
  simp [isDigitC] at h
  simp [isSpaceC]
  omega

theorem isDigit_ne_minus {c : Char} (h : isDigitC c = true) : c ≠ '-' := by
  intro he; subst he; exact absurd h (by decide)

theorem isDigit_ne_plus {c : Char} (h : isDigitC c = true) : c ≠ '+' := by
  intro he; subst he; exact absurd h (by decide)

theorem scanInt_natDigits (n : Nat) (r : CStr) (hr : headNotDigit r = true) :
    scanInt (natDigits n ++ r) = some ((n : Int), r) := by
  obtain ⟨c, t, hct⟩ : ∃ c t, natDigits n = c :: t := by
    cases hnd : natDigits n with
    | nil => exact absurd hnd (natDigits_ne_nil n)
    | cons c t => exact ⟨c, t, rfl⟩
  have hall := natDigits_allDigits n
  rw [hct] at hall
  simp [allDigits, List.all_cons] at hall
  have hsn := scanNat_natDigits n r hr
  rw [hct] at hsn
  rw [List.cons_append] at hsn
  rw [hct]
  show scanIntCore (List.dropWhile isSpaceC (c :: (t ++ r))) = _
  rw [List.dropWhile_cons, if_neg (by simp [isDigit_not_space hall.1])]
  simp [scanIntCore, isDigit_ne_minus hall.1, isDigit_ne_plus hall.1, hsn]

theorem atoi_natDigits (n : Nat) (r : CStr) (hr : headNotDigit r = true) :
    atoi (natDigits n ++ r) = (n : Int) := by
  simp [atoi, scanInt_natDigits n r hr]

theorem scanInt_space (x : CStr) : scanInt (' ' :: x) = scanInt x := by
  show scanIntCore (List.dropWhile isSpaceC (' ' :: x)) = _
  rw [List.dropWhile_cons, if_pos (by decide)]
  rfl

/-- Model of C strchr: index of the first occurrence of a character. -/
def strchr (c : Char) : CStr → Option Nat
  | [] => none
  | x :: xs => if x = c then some 0 else (strchr c xs).map (· + 1)

/-- Model of C strstr: index of the first occurrence of a substring. -/
def findSub (pat : CStr) : CStr → Option Nat
  | [] => if pat.isPrefixOf [] then some 0 else none
  | x :: xs => if pat.isPrefixOf (x :: xs) then some 0 else (findSub pat xs).map (· + 1)

theorem isPre_iff_take (p : CStr) : ∀ s : CStr, p.isPrefixOf s = true ↔ s.take p.length = p := by
  induction p with
  | nil => intro s; simp [List.isPrefixOf]
  | cons a as ih =>
    intro s
    cases s with
    | nil => simp [List.isPrefixOf]
    | cons b bs =>
      simp [List.isPrefixOf, List.take, ih bs]
      intro _
      exact eq_comm

theorem isPre_ex {p s : CStr} : p.isPrefixOf s = true ↔ ∃ t, s = p ++ t := by
  constructor
  · intro h
    refine ⟨s.drop p.length, ?_⟩
    have ht := (isPre_iff_take p s).1 h
    conv_lhs => rw [← List.take_append_drop p.length s]
    rw [ht]
  · rintro ⟨t, rfl⟩
    rw [isPre_iff_take, List.take_left]

theorem isPre_append_self (l t : CStr) : l.isPrefixOf (l ++ t) = true := by
  rw [isPre_ex]; exact ⟨t, rfl⟩

theorem isPre_length {p s : CStr} (h : p.isPrefixOf s = true) : p.length ≤ s.length := by
  obtain ⟨t, rfl⟩ := isPre_ex.1 h
  simp

theorem findSub_isPre (pat : CStr) : ∀ (s : CStr) (i : Nat), findSub pat s = some i → pat.isPrefixOf (s.drop i) = true := by
  intro s
  induction s with
  | nil =>
    intro i h
    simp [findSub] at h
    obtain ⟨h1, h2⟩ := h
    subst h2
    simpa using h1
  | cons x xs ih =>
    intro i h
    by_cases hp : pat.isPrefixOf (x :: xs) = true
    · simp [findSub, hp] at h
      subst h
      simpa using hp
    · simp [findSub, hp] at h
      obtain ⟨i', h1, h2⟩ := h
      subst h2
      simpa using ih i' h1

theorem findSub_min (pat : CStr) : ∀ (s : CStr) (i : Nat), findSub pat s = some i → ∀ j, j < i → pat.isPrefixOf (s.drop j) = false := by
  intro s
  induction s with
  | nil =>
    intro i h j hj
    simp [findSub] at h
    omega
  | cons x xs ih =>
    intro i h j hj
    by_cases hp : pat.isPrefixOf (x :: xs) = true
    · simp [findSub, hp] at h; omega
    · simp [findSub, hp] at h
      obtain ⟨i', h1, h2⟩ := h
      cases j with
      | zero =>
        rw [List.drop_zero]
        cases hb : pat.isPrefixOf (x :: xs) with
        | false => rfl
        | true => exact absurd hb hp
      | succ j' =>
        have := ih i' h1 j' (by omega)
        simpa using this

theorem findSub_exists_le (pat : CStr) : ∀ (s : CStr) (j : Nat), pat.isPrefixOf (s.drop j) = true → ∃ i, findSub pat s = some i ∧ i ≤ j := by
  intro s
  induction s with
  | nil =>
    intro j h
    simp at h
    refine ⟨0, ?_, by omega⟩
    simp [findSub, h]
  | cons x xs ih =>
    intro j h
    by_cases hp : pat.isPrefixOf (x :: xs) = true
    · exact ⟨0, by simp [findSub, hp], by omega⟩
    · cases j with
      | zero =>
        rw [List.drop_zero] at h
        exact absurd h hp
      | succ j' =>
        obtain ⟨i', h1, h2⟩ := ih j' (by simpa using h)
        exact ⟨i' + 1, by simp [findSub, hp, h1], by omega⟩

theorem findSub_none (pat : CStr) (s : CStr) (h : findSub pat s = none) : ∀ j, pat.isPrefixOf (s.drop j) = false := by
  intro j
  by_contra hc
  have hc' : pat.isPrefixOf (s.drop j) = true := by
    cases hb : pat.isPrefixOf (s.drop j) with
    | false => exact absurd hb hc
    | true => rfl
  obtain ⟨i, h1, _⟩ := findSub_exists_le pat s j hc'
  rw [h] at h1
  exact absurd h1 (by simp)

theorem findSub_zero {pat s : CStr} (h : pat.isPrefixOf s = true) : findSub pat s = some 0 := by
  cases s with
  | nil => simp [findSub, h]
  | cons x xs => simp [findSub, h]

/-- Occurrences strictly inside the left part of an append lift into it
    when the tail is a disjoint occurrence of a pattern whose shape
    forbids boundary overlap; specialised to the "://" separator. -/
theorem sep3_boundary (a b : CStr) (i : Nat) (hi : i < a.length)
    (h : [':', '/', '/'].isPrefixOf ((a ++ ([':', '/', '/'] ++ b)).drop i) = true) :
    [':', '/', '/'].isPrefixOf (a.drop i) = true := by
  have hd : (a ++ ([':', '/', '/'] ++ b)).drop i = a.drop i ++ ([':', '/', '/'] ++ b) := by
    rw [List.drop_append_eq_append_drop]
    have : i - a.length = 0 := by omega
    rw [this, List.drop_zero]
  rw [hd] at h
  have hlen : 0 < (a.drop i).length := by
    rw [List.length_drop]; omega
  match hm : a.drop i with
  | [] => rw [hm] at hlen; simp at hlen
  | [x] =>
    rw [hm] at h
    rw [isPre_iff_take] at h
    simp [List.take] at h
  | [x, y] =>
    rw [hm] at h
    rw [isPre_iff_take] at h
    simp [List.take] at h
  | x :: y :: z :: d3 =>
    rw [hm] at h
    rw [isPre_iff_take] at h
    simp [List.take] at h
    rw [isPre_iff_take]
    simp [List.take]
    exact ⟨h.1, h.2.1, h.2.2⟩

/-- Boundary analysis for the blank-line separator: an occurrence
    starting strictly inside the left part is either entirely inside it,
    or starts exactly two characters before its end, which then ends
    in carriage return, line feed. -/
theorem crlf_boundary (a b : CStr) (i : Nat) (hi : i < a.length)
    (h : ['\r', '\n', '\r', '\n'].isPrefixOf ((a ++ (['\r', '\n', '\r', '\n'] ++ b)).drop i) = true) :
    ['\r', '\n', '\r', '\n'].isPrefixOf (a.drop i) = true ∨ a.drop i = ['\r', '\n'] := by
  have hd : (a ++ (['\r', '\n', '\r', '\n'] ++ b)).drop i = a.drop i ++ (['\r', '\n', '\r', '\n'] ++ b) := by
    rw [List.drop_append_eq_append_drop]
    have : i - a.length = 0 := by omega
    rw [this, List.drop_zero]
  rw [hd] at h
  have hlen : 0 < (a.drop i).length := by
    rw [List.length_drop]; omega
  match hm : a.drop i with
  | [] => rw [hm] at hlen; simp at hlen
  | [x] =>
    rw [hm] at h
    rw [isPre_iff_take] at h
    simp [List.take] at h
  | [x, y] =>
    rw [hm] at h
    rw [isPre_iff_take] at h
    simp [List.take] at h
    right
    simp [h.1, h.2]
  | [x, y, z] =>
    rw [hm] at h
    rw [isPre_iff_take] at h
    simp [List.take] at h
  | x :: y :: z :: w :: d4 =>
    rw [hm] at h
    rw [isPre_iff_take] at h
    simp [List.take] at h
    left
    rw [isPre_iff_take]
    simp [List.take]
    exact ⟨h.1, h.2.1, h.2.2.1, h.2.2.2⟩

/-- First occurrence of "://" in a string assembled around it, when the
    part before it contains no occurrence of its own. -/
theorem findSub_sep3 (a b : CStr) (ha : findSub [':', '/', '/'] a = none) :
    findSub [':', '/', '/'] (a ++ ([':', '/', '/'] ++ b)) = some a.length := by
  have hocc : [':', '/', '/'].isPrefixOf ((a ++ ([':', '/', '/'] ++ b)).drop a.length) = true := by
    rw [List.drop_left]
    exact isPre_append_self _ _
  obtain ⟨i, h1, h2⟩ := findSub_exists_le _ _ _ hocc
  rcases Nat.lt_or_ge i a.length with hlt | hge
  · have hip := findSub_isPre _ _ _ h1
    have := sep3_boundary a b i hlt hip
    rw [findSub_none _ a ha i] at this
    exact absurd this (by simp)
  · have : i = a.length := by omega
    rw [this] at h1
    exact h1

/-- First occurrence of the blank-line separator in headers ++ separator ++ body,
    when the headers contain no separator and do not end in carriage return,
    line feed. -/
theorem findSub_crlf (a b : CStr) (ha : findSub ['\r', '\n', '\r', '\n'] a = none)
    (hend : a.drop (a.length - 2) ≠ ['\r', '\n']) :
    findSub ['\r', '\n', '\r', '\n'] (a ++ (['\r', '\n', '\r', '\n'] ++ b)) = some a.length := by
  have hocc : ['\r', '\n', '\r', '\n'].isPrefixOf ((a ++ (['\r', '\n', '\r', '\n'] ++ b)).drop a.length) = true := by
    rw [List.drop_left]
    exact isPre_append_self _ _
  obtain ⟨i, h1, h2⟩ := findSub_exists_le _ _ _ hocc
  rcases Nat.lt_or_ge i a.length with hlt | hge
  · have hip := findSub_isPre _ _ _ h1
    rcases crlf_boundary a b i hlt hip with hin | hcr
    · rw [findSub_none _ a ha i] at hin
      exact absurd hin (by simp)
    · have hl2 : (a.drop i).length = 2 := by rw [hcr]; rfl
      rw [List.length_drop] at hl2
      have : i = a.length - 2 := by omega
      rw [this] at hcr
      exact absurd hcr hend
  · have : i = a.length := by omega
    rw [this] at h1
    exact h1

theorem strchr_append_first (c : Char) (b : CStr) : ∀ a : CStr, c ∉ a → strchr c (a ++ c :: b) = some a.length := by
  intro a
  induction a with
  | nil => intro _; simp [strchr]
  | cons x xs ih =>
    intro h
    simp at h
    rw [List.cons_append]
    simp [strchr, h.1, ih h.2]
    exact Ne.symm h.1

/- ---------- URL parser (include/url_parser.h) ---------- -/

/-- The Url structure of url_parser.h: NULL pointers are modelled as
    none, the int port keeps its minus-one no-port sentinel. -/
structure Url where
  scheme : Option CStr
  user : Option CStr
  password : Option CStr
  host : Option CStr
  port : Int
  path : Option CStr
  query : Option CStr
  fragment : Option CStr
deriving DecidableEq

def sepL : CStr := [':', '/', '/']

/-- Scheme step of url_parse: split at the first occurrence of "://". -/
def schemeSplit (s : CStr) : Option CStr × CStr :=
  match findSub sepL s with
  | some i => (some (s.take i), s.drop (i + 3))
  | none => (none, s)

def restAfterScheme (s : CStr) : CStr := (schemeSplit s).2

/-- Userinfo step of url_parse: strchr for the first at sign anywhere in
    the remainder, then the first colon when it precedes that at sign. -/
def authSplit (p : CStr) : Option CStr × Option CStr × CStr :=
  match strchr '@' p with
  | some a =>
    match strchr ':' p with
    | some c =>
      if c < a then
        (some (p.take c), some ((p.drop (c + 1)).take (a - c - 1)), p.drop (a + 1))
      else (some (p.take a), none, p.drop (a + 1))
    | none => (some (p.take a), none, p.drop (a + 1))
  | none => (none, none, p)

def restAfterAuth (s : CStr) : CStr := (authSplit (restAfterScheme s)).2.2

/-- Host and port step of url_parse: first slash against first colon. -/
def hostPortSplit (p : CStr) : CStr × Int :=
  match strchr '/' p, strchr ':' p with
  | some pos, some cpos =>
    if pos < cpos then (p.take pos, -1) else (p.take cpos, atoi (p.drop (cpos + 1)))
  | some pos, none => (p.take pos, -1)
  | none, some cpos => (p.take cpos, atoi (p.drop (cpos + 1)))
  | none, none => (p, -1)

/-- Path, query and fragment step of url_parse.  In the branch where a
    question mark precedes the hash, the fragment is left unset, exactly
    as in the C source. -/
def pathSplit (p : CStr) : Option CStr × Option CStr × Option CStr :=
  match strchr '/' p with
  | none => (none, none, none)
  | some pos =>
    let ps := p.drop pos
    match strchr '?' ps, strchr '#' ps with
    | some q, some f =>
      if q < f then (some (ps.take q), some ((ps.drop (q + 1)).take (f - q - 1)), none)
      else (some (ps.take f), none, some (ps.drop (f + 1)))
    | some q, none => (some (ps.take q), some (ps.drop (q + 1)), none)
    | none, some f => (some (ps.take f), none, some (ps.drop (f + 1)))
    | none, none => (some ps, none, none)

/-- url_parse on a present, NUL-free string with all allocations succeeding. -/
def urlParse (s : CStr) : Url :=
  { scheme := (schemeSplit s).1
    user := (authSplit (restAfterScheme s)).1
    password := (authSplit (restAfterScheme s)).2.1
    host := some (hostPortSplit (restAfterAuth s)).1
    port := (hostPortSplit (restAfterAuth s)).2
    path := (pathSplit (restAfterAuth s)).1
    query := (pathSplit (restAfterAuth s)).2.1
    fragment := (pathSplit (restAfterAuth s)).2.2 }

/-- url_parse with the NULL-input guard of the C source. -/
def urlParseC : Option CStr → Option Url
  | none => none
  | some s => some (urlParse s)

/- ---------- URL normalizer clean_url ---------- -/

def httpL : CStr := ['h', 't', 't', 'p']
def httpsL : CStr := ['h', 't', 't', 'p', 's']
def httpsPrefixL : CStr := ['h', 't', 't', 'p', 's', ':', '/', '/']

def schemeStr (u : Url) : CStr := u.scheme.getD httpL
def hostStr (u : Url) : CStr := u.host.getD []
def portStr (u : Url) : CStr := if 0 < u.port then ':' :: natDigits u.port.toNat else []
def pathStr (u : Url) : CStr := u.path.getD ['/']
def queryStr (u : Url) : CStr := match u.query with | some q => '?' :: q | none => []
def fragStr (u : Url) : CStr := match u.fragment with | some f => '#' :: f | none => []

def cleanRest (u : Url) : CStr := hostStr u ++ portStr u ++ pathStr u ++ queryStr u ++ fragStr u

/-- The string clean_url writes into its buffer for a parsed URL. -/
def cleanUrlOfParts (u : Url) : CStr := schemeStr u ++ (sepL ++ cleanRest u)

/-- clean_url: parse, then re-serialize field by field. -/
def cleanUrl (s : CStr) : CStr := cleanUrlOfParts (urlParse s)

/-- The byte count clean_url allocates for the reconstructed URL,
    including the final NUL: the "max 5 chars" port comment is the
    six-byte reservation in the middle. -/
def cleanUrlAllocLen (u : Url) : Nat :=
  (match u.scheme with | some sc => sc.length + 3 | none => 7) +
  (match u.host with | some h => h.length | none => 0) +
  (if 0 < u.port then 6 else 0) +
  (match u.path with | some pa => pa.length | none => 1) +
  (match u.query with | some q => q.length + 1 | none => 0) +
  (match u.fragment with | some f => f.length + 1 | none => 0) + 1

/- ---------- response parser (parse_http_response) ---------- -/

structure HttpResponse where
  status_code : Int
  headers : Option CStr
  body : Option CStr
deriving DecidableEq

def httpMarkL : CStr := ['H', 'T', 'T', 'P', '/']
def crlfCrlfL : CStr := ['\r', '\n', '\r', '\n']

/-- The sscanf format "HTTP/%*d.%*d %d" applied to the text following
    the first "HTTP/" marker: two skipped integers separated by a literal
    dot, then the status code; any mismatch leaves the initial zero. -/
def scanStatusAfter (s : CStr) : Int :=
  match scanInt s with
  | none => 0
  | some (_, r1) =>
    match r1 with
    | '.' :: r2 =>
      match scanInt r2 with
      | none => 0
      | some (_, r3) =>
        match scanInt r3 with
        | none => 0
        | some (v, _) => v
    | _ => 0

/-- parse_http_response on a present buffer with the response-struct
    allocation succeeding. -/
def parseHttpResponse (response : CStr) : HttpResponse :=
  let status :=
    match findSub httpMarkL response with
    | some i => scanStatusAfter (response.drop (i + 5))
    | none => 0
  match findSub crlfCrlfL response with
  | some j =>
    { status_code := status, headers := some (response.take j), body := some (response.drop (j + 4)) }
  | none => { status_code := status, headers := none, body := none }

/- ---------- request builder and pipeline (http.c) ---------- -/

def contentLen : Option CStr → Nat
  | some b => b.length
  | none => 0

def reqPart1 : CStr := [' ']
def reqPart2 : CStr := [' ', 'H', 'T', 'T', 'P', '/', '1', '.', '1', '\r', '\n', 'H', 'o', 's', 't', ':', ' ']
def reqPart3 : CStr := ['\r', '\n', 'C', 'o', 'n', 'n', 'e', 'c', 't', 'i', 'o', 'n', ':', ' ', 'c', 'l', 'o', 's', 'e', '\r', '\n', 'C', 'o', 'n', 't', 'e', 'n', 't', '-', 'L', 'e', 'n', 'g', 't', 'h', ':', ' ']
def reqPart4 : CStr := ['\r', '\n', '\r', '\n']

/-- The request text of the snprintf format string in http_request:
    method, space, path, " HTTP/1.1", CRLF, "Host: ", host, CRLF,
    "Connection: close", CRLF, "Content-Length: ", the body length,
    a blank line, then the body. -/
def buildRequest (method path host : CStr) (body : Option CStr) : CStr :=
  method ++ reqPart1 ++ path ++ reqPart2 ++ host ++ reqPart3 ++
    natDigits (contentLen body) ++ reqPart4 ++ body.getD []

/-- What ends up in the 4096-byte stack buffer: snprintf truncates the
    formatted request to 4095 characters plus the terminating NUL. -/
def sentRequest (method path host : CStr) (body : Option CStr) : CStr :=
  (buildRequest method path host body).take 4095

/-- Oracle outcomes for the external calls made during one request,
    plus the received bytes. -/
structure NetEnv where
  socketOk : Bool
  ptonOk : Bool
  connectOk : Bool
  ctxOk : Bool
  handshakeOk : Bool
  recvBufOk : Bool
  respAllocOk : Bool
  recvData : CStr

/-- Resource and transport events emitted by the pipeline, in order. -/
inductive NetEvent
  | socketOpen
  | socketClose
  | ctxNew
  | ctxFree
  | sslNew
  | sslFree
  | tlsHandshake
  | sendData
  | recvBytes
deriving DecidableEq

/-- connect_to_host: socket, inet_pton, connect; on either of the two
    later failures the freshly opened socket is closed before returning. -/
def connectToHost (env : NetEnv) (_host : CStr) (_port : Int) : Option Unit × List NetEvent :=
  if env.socketOk then
    if env.ptonOk then
      if env.connectOk then (some (), [NetEvent.socketOpen])
      else (none, [NetEvent.socketOpen, NetEvent.socketClose])
    else (none, [NetEvent.socketOpen, NetEvent.socketClose])
  else (none, [])

inductive ReqOutcome
  | invalidUrl
  | connectFailed
  | tlsCtxFailed
  | tlsHandshakeFailed
  | recvAllocFailed (sent : CStr)
  | done (sent : CStr) (resp : Option HttpResponse)
deriving DecidableEq

/-- Tail of http_request after a (possibly TLS-wrapped) connection is
    up: build, send, allocate the receive buffer, receive, tear down,
    parse.  The send and receive results are never branched on, exactly
    as in the C source. -/
def httpFinish (env : NetEnv) (method : CStr) (parsed : Url) (body : Option CStr)
    (useSsl : Bool) (ev : List NetEvent) : ReqOutcome × List NetEvent :=
  let req := sentRequest method (pathStr parsed) (hostStr parsed) body
  let ev1 := ev ++ [NetEvent.sendData]
  if env.recvBufOk then
    let resp := if env.respAllocOk then some (parseHttpResponse env.recvData) else none
    (ReqOutcome.done req resp,
     ev1 ++ [NetEvent.recvBytes] ++ (if useSsl then [NetEvent.sslFree, NetEvent.ctxFree] else []) ++ [NetEvent.socketClose])
  else
    (ReqOutcome.recvAllocFailed req,
     ev1 ++ (if useSsl then [NetEvent.sslFree, NetEvent.ctxFree] else []) ++ [NetEvent.socketClose])

/-- http_request: normalize, reparse, validate, connect, optional TLS
    setup, then httpFinish; every failure path tears down what was
    acquired before returning. -/
def httpRequest (env : NetEnv) (url method : CStr) (body : Option CStr) (useSsl : Bool) :
    ReqOutcome × List NetEvent :=
  let parsed := urlParse (cleanUrl url)
  if !parsed.host.isSome || !parsed.scheme.isSome then (ReqOutcome.invalidUrl, [])
  else
    let port : Int := if 0 < parsed.port then parsed.port else if useSsl then 443 else 80
    match connectToHost env (hostStr parsed) port with
    | (none, ev) => (ReqOutcome.connectFailed, ev)
    | (some _, ev) =>
      if useSsl then
        if env.ctxOk then
          if env.handshakeOk then
            httpFinish env method parsed body true
              (ev ++ [NetEvent.ctxNew, NetEvent.sslNew, NetEvent.tlsHandshake])
          else
            (ReqOutcome.tlsHandshakeFailed,
             ev ++ [NetEvent.ctxNew, NetEvent.sslNew, NetEvent.tlsHandshake,
                    NetEvent.sslFree, NetEvent.ctxFree, NetEvent.socketClose])
        else (ReqOutcome.tlsCtxFailed, ev ++ [NetEvent.socketClose])
      else httpFinish env method parsed body false ev

def isInvalidOutcome : ReqOutcome → Bool
  | ReqOutcome.invalidUrl => true
  | _ => false

/-- The use_ssl flag every facade verb computes:
    strncmp(url, "https://", 8) == 0. -/
def useSslFlag (url : CStr) : Bool := url.take 8 == httpsPrefixL

def methodGET : CStr := ['G', 'E', 'T']
def methodPOST : CStr := ['P', 'O', 'S', 'T']
def methodPUT : CStr := ['P', 'U', 'T']
def methodDELETE : CStr := ['D', 'E', 'L', 'E', 'T', 'E']
def methodUPDATE : CStr := ['U', 'P', 'D', 'A', 'T', 'E']
def methodTRACE : CStr := ['T', 'R', 'A', 'C', 'E']
def methodHEAD : CStr := ['H', 'E', 'A', 'D']
def methodOPTIONS : CStr := ['O', 'P', 'T', 'I', 'O', 'N', 'S']

def httpGet (env : NetEnv) (url : CStr) : ReqOutcome × List NetEvent :=
  httpRequest env url methodGET none (useSslFlag url)
def httpPost (env : NetEnv) (url : CStr) (body : Option CStr) : ReqOutcome × List NetEvent :=
  httpRequest env url methodPOST body (useSslFlag url)
def httpPut (env : NetEnv) (url : CStr) (body : Option CStr) : ReqOutcome × List NetEvent :=
  httpRequest env url methodPUT body (useSslFlag url)
def httpDelete (env : NetEnv) (url : CStr) : ReqOutcome × List NetEvent :=
  httpRequest env url methodDELETE none (useSslFlag url)
def httpUpdate (env : NetEnv) (url : CStr) (body : Option CStr) : ReqOutcome × List NetEvent :=
  httpRequest env url methodUPDATE body (useSslFlag url)
def httpTrace (env : NetEnv) (url : CStr) : ReqOutcome × List NetEvent :=
  httpRequest env url methodTRACE none (useSslFlag url)
def httpHead (env : NetEnv) (url : CStr) : ReqOutcome × List NetEvent :=
  httpRequest env url methodHEAD none (useSslFlag url)
def httpOptions (env : NetEnv) (url : CStr) : ReqOutcome × List NetEvent :=
  httpRequest env url methodOPTIONS none (useSslFlag url)

/- ---------- helper lemmas about the scheme step and normalization ---------- -/

theorem isPre_of_take {pat s : CStr} {i j : Nat} (hne : pat ≠ [])
    (h : pat.isPrefixOf ((s.take i).drop j) = true) :
    j < i ∧ pat.isPrefixOf (s.drop j) = true := by
  rw [List.drop_take] at h
  obtain ⟨t, ht⟩ := isPre_ex.1 h
  have hji : j < i := by
    by_contra hc
    have hz : i - j = 0 := by omega
    rw [hz] at ht
    simp at ht
    exact hne ht.1
  refine ⟨hji, ?_⟩
  rw [isPre_ex]
  refine ⟨t ++ (s.drop j).drop (i - j), ?_⟩
  conv_lhs => rw [← List.take_append_drop (i - j) (s.drop j)]
  rw [ht, List.append_assoc]

theorem findSub_none_take {pat s : CStr} {i : Nat} (hne : pat ≠ [])
    (h : findSub pat s = some i) : findSub pat (s.take i) = none := by
  cases hf : findSub pat (s.take i) with
  | none => rfl
  | some j =>
    have hp := findSub_isPre _ _ _ hf
    obtain ⟨hji, hp'⟩ := isPre_of_take hne hp
    have := findSub_min _ _ _ h j hji
    rw [this] at hp'
    exact absurd hp' (by simp)

theorem schemeStr_noOccur (s : CStr) : findSub sepL (schemeStr (urlParse s)) = none := by
  have hs : (urlParse s).scheme = (schemeSplit s).1 := rfl
  cases h : findSub sepL s with
  | none =>
    have : (schemeSplit s).1 = none := by simp [schemeSplit, h]
    simp [schemeStr, hs, this]
    decide
  | some i =>
    have : (schemeSplit s).1 = some (s.take i) := by simp [schemeSplit, h]
    simp [schemeStr, hs, this]
    exact findSub_none_take (by simp [sepL]) h

theorem schemeSplit_clean (u : Url) (hno : findSub sepL (schemeStr u) = none) :
    schemeSplit (cleanUrlOfParts u) = (some (schemeStr u), cleanRest u) := by
  show schemeSplit (schemeStr u ++ (sepL ++ cleanRest u)) = _
  have hf : findSub sepL (schemeStr u ++ (sepL ++ cleanRest u)) = some (schemeStr u).length :=
    findSub_sep3 (schemeStr u) (cleanRest u) hno
  simp [schemeSplit, hf]
  simp [sepL]

theorem normScheme (url : CStr) : (urlParse (cleanUrl url)).scheme = some (schemeStr (urlParse url)) := by
  show (schemeSplit (cleanUrlOfParts (urlParse url))).1 = _
  rw [schemeSplit_clean _ (schemeStr_noOccur url)]

theorem urlParse_host_isSome (s : CStr) : (urlParse s).host.isSome = true := rfl

theorem clean_scheme_isSome (url : CStr) : (urlParse (cleanUrl url)).scheme.isSome = true := by
  rw [normScheme]; rfl

theorem flag_iff_schemeStr (url : CStr) : useSslFlag url = true ↔ schemeStr (urlParse url) = httpsL := by
  constructor
  · intro h
    have htake : url.take 8 = httpsPrefixL := by
      have := (beq_iff_eq (a := url.take 8) (b := httpsPrefixL)).1
      exact this h
    have hurl : url = httpsPrefixL ++ url.drop 8 := by
      conv_lhs => rw [← List.take_append_drop 8 url]
      rw [htake]
    have hocc : sepL.isPrefixOf (url.drop 5) = true := by
      rw [hurl, List.drop_append_eq_append_drop]
      have h58 : (5 : Nat) - httpsPrefixL.length = 0 := by simp [httpsPrefixL]
      rw [h58, List.drop_zero]
      have : httpsPrefixL.drop 5 = sepL := by decide
      rw [this]
      exact isPre_append_self _ _
    obtain ⟨i, hf, hle⟩ := findSub_exists_le sepL url 5 hocc
    have hi5 : i = 5 := by
      rcases Nat.lt_or_ge i 5 with hlt | hge
      · exfalso
        have hp := findSub_isPre _ _ _ hf
        rw [hurl, List.drop_append_eq_append_drop] at hp
        have hz : i - httpsPrefixL.length = 0 := by simp [httpsPrefixL]; omega
        rw [hz, List.drop_zero] at hp
        rw [isPre_iff_take, List.take_append_eq_append_take] at hp
        have h3 : sepL.length ≤ (httpsPrefixL.drop i).length := by
          simp [httpsPrefixL, sepL]
          omega
        have h30 : sepL.length - (httpsPrefixL.drop i).length = 0 := by omega
        rw [h30, List.take_zero, List.append_nil] at hp
        interval_cases i <;> exact absurd hp (by decide)
      · omega
    rw [hi5] at hf
    have hscheme : (urlParse url).scheme = some (url.take 5) := by
      show (schemeSplit url).1 = _
      simp [schemeSplit, hf]
    have ht5 : url.take 5 = httpsL := by
      rw [hurl, List.take_append_eq_append_take]
      have : (5 : Nat) - httpsPrefixL.length = 0 := by simp [httpsPrefixL]
      rw [this, List.take_zero, List.append_nil]
      decide
    simp [schemeStr, hscheme, ht5]
  · intro h
    cases hf : findSub sepL url with
    | none =>
      exfalso
      have : (urlParse url).scheme = none := by
        show (schemeSplit url).1 = none
        simp [schemeSplit, hf]
      rw [schemeStr, this] at h
      exact absurd h (by decide)
    | some i =>
      have hscheme : (urlParse url).scheme = some (url.take i) := by
        show (schemeSplit url).1 = _
        simp [schemeSplit, hf]
      rw [schemeStr, hscheme] at h
      simp at h
      have hp := findSub_isPre _ _ _ hf
      have hlen : 3 ≤ (url.drop i).length := by
        have := isPre_length hp
        simpa [sepL] using this
      rw [List.length_drop] at hlen
      have hi5 : i = 5 := by
        have h5 : (url.take i).length = 5 := by rw [h]; decide
        rw [List.length_take] at h5
        omega
      rw [hi5] at hp h
      obtain ⟨t, ht⟩ := isPre_ex.1 hp
      have hurl : url = httpsL ++ (sepL ++ t) := by
        conv_lhs => rw [← List.take_append_drop 5 url]
        rw [h, ht]
      show (url.take 8 == httpsPrefixL) = true
      rw [beq_iff_eq, hurl, ← List.append_assoc]
      rw [List.take_append_eq_append_take]
      have hl : (httpsL ++ sepL).length = 8 := by decide
      rw [List.take_of_length_le (by rw [hl]), hl]
      simp
      decide

/- ---------- claim theorems ---------- -/

/-- C2: for every URL handed to a facade verb, the use_ssl flag the verb
    wrappers compute from the leading raw characters is true exactly when the scheme
    of the reparsed normalized URL is the secure variant, the wrappers
    forward that flag into http_request unchanged, and a request running
    with the flag off never emits a TLS handshake event. -/
theorem c2_tls_iff_https (url : CStr) (env : NetEnv) (method : CStr) (body : Option CStr) :
    (useSslFlag url = true ↔ (urlParse (cleanUrl url)).scheme = some httpsL)
    ∧ httpGet env url = httpRequest env url methodGET none (useSslFlag url)
    ∧ (httpRequest env url method body false).2.count NetEvent.tlsHandshake = 0 := by
  refine ⟨?_, rfl, ?_⟩
  · rw [flag_iff_schemeStr, normScheme]
    constructor
    · intro h; rw [h]
    · intro h; exact Option.some_inj.1 h
  · obtain ⟨b1, b2, b3, b4, b5, b6, b7, rd⟩ := env
    simp only [httpRequest, httpFinish, connectToHost, urlParse_host_isSome, clean_scheme_isSome]
    cases b1 <;> cases b2 <;> cases b3 <;> cases b6 <;>
      simp [List.count_append, List.count_cons, List.count_nil]

/-- C2 witness: at a concrete plain-http URL the flag is false, the
    normalized scheme is not the secure variant, and the pipeline emits
    no handshake event. -/
theorem c2_tls_iff_https_witness :
    useSslFlag ['h', 't', 't', 'p', ':', '/', '/', 'x'] = false
    ∧ ¬ (urlParse (cleanUrl ['h', 't', 't', 'p', ':', '/', '/', 'x'])).scheme = some httpsL
    ∧ (httpRequest ⟨true, true, true, true, true, true, true, []⟩
        ['h', 't', 't', 'p', ':', '/', '/', 'x'] methodGET none false).2.count NetEvent.tlsHandshake = 0 := by
  refine ⟨by decide, ?_, (c2_tls_iff_https ['h', 't', 't', 'p', ':', '/', '/', 'x'] ⟨true, true, true, true, true, true, true, []⟩ methodGET none).2.2⟩
  intro h
  have := (c2_tls_iff_https ['h', 't', 't', 'p', ':', '/', '/', 'x'] ⟨true, true, true, true, true, true, true, []⟩ methodGET none).1.2 h
  exact absurd this (by decide)

/-- C9: url_parse always assigns a host on a present input, the
    normalized URL always reparses with a present scheme, the empty
    string normalizes to http colon slash slash slash, and therefore
    the Invalid URL rejection branch of http_request is unreachable. -/
theorem c9_no_invalid_rejection (s : CStr) (env : NetEnv) (method : CStr) (body : Option CStr) (useSsl : Bool) :
    (urlParse s).host.isSome = true
    ∧ (urlParse (cleanUrl s)).scheme.isSome = true
    ∧ cleanUrl [] = ['h', 't', 't', 'p', ':', '/', '/', '/']
    ∧ isInvalidOutcome (httpRequest env s method body useSsl).1 = false := by
  refine ⟨rfl, clean_scheme_isSome s, by decide, ?_⟩
  obtain ⟨b1, b2, b3, b4, b5, b6, b7, rd⟩ := env
  simp only [httpRequest, httpFinish, connectToHost, urlParse_host_isSome, clean_scheme_isSome]
  cases b1 <;> cases b2 <;> cases b3 <;> cases useSsl <;> cases b4 <;> cases b5 <;> cases b6 <;>
    simp [isInvalidOutcome]

/-- C1: over every combination of success and failure of the external
    calls, the trace of http_request opens at most one socket and closes
    exactly as many sockets as it opens, frees exactly as many TLS
    contexts as it creates and exactly as many TLS sessions as it
    creates: the teardown runs exactly once on every exit path. -/
theorem c1_teardown_exactly_once (env : NetEnv) (url method : CStr) (body : Option CStr) (useSsl : Bool) :
    ((httpRequest env url method body useSsl).2.count NetEvent.socketOpen =
      (httpRequest env url method body useSsl).2.count NetEvent.socketClose)
    ∧ ((httpRequest env url method body useSsl).2.count NetEvent.ctxNew =
      (httpRequest env url method body useSsl).2.count NetEvent.ctxFree)
    ∧ ((httpRequest env url method body useSsl).2.count NetEvent.sslNew =
      (httpRequest env url method body useSsl).2.count NetEvent.sslFree)
    ∧ (httpRequest env url method body useSsl).2.count NetEvent.socketOpen ≤ 1 := by
  obtain ⟨b1, b2, b3, b4, b5, b6, b7, rd⟩ := env
  simp only [httpRequest, httpFinish, connectToHost, urlParse_host_isSome, clean_scheme_isSome]
  cases b1 <;> cases b2 <;> cases b3 <;> cases useSsl <;> cases b4 <;> cases b5 <;> cases b6 <;>
    simp [List.count_append, List.count_cons, List.count_nil]

theorem authSplit_pw_user (p : CStr) :
    (authSplit p).2.1.isSome = true → (authSplit p).1.isSome = true := by
  unfold authSplit
  cases strchr '@' p with
  | none => simp
  | some a =>
    cases strchr ':' p with
    | none => simp
    | some c =>
      by_cases h : c < a <;> simp [h]

/-- C8: url_parse is total on a present input - the NULL-guarded
    wrapper returns a result for every non-null string - and whenever
    the parsed password is present the parsed user is present too. -/
theorem c8_total_and_userinfo_invariant (s : CStr) :
    (urlParseC (some s)).isSome = true
    ∧ ((urlParse s).password.isSome = true → (urlParse s).user.isSome = true) := by
  refine ⟨rfl, ?_⟩
  intro h
  exact authSplit_pw_user (restAfterScheme s) h

/-- C8 witness: a URL with userinfo has both password and user present. -/
theorem c8_total_and_userinfo_invariant_witness :
    (urlParse ['u', ':', 'p', '@', 'h']).password.isSome = true
    ∧ (urlParse ['u', ':', 'p', '@', 'h']).user.isSome = true := by
  refine ⟨by decide, ?_⟩
  exact (c8_total_and_userinfo_invariant ['u', ':', 'p', '@', 'h']).2 (by decide)

/-- C3 counterexample: in host slash a at b the only at sign comes after
    the first slash, so the claim predicts absent user and host equal to
    host, but url_parse splits at that at sign anyway: user becomes
    everything before it and host becomes what follows. -/
theorem c3_counterexample :
    (urlParse ['h', 'o', 's', 't', '/', 'a', '@', 'b']).user = some ['h', 'o', 's', 't', '/', 'a']
    ∧ (urlParse ['h', 'o', 's', 't', '/', 'a', '@', 'b']).host = some ['b'] := by decide

/-- C3 amended: the userinfo split happens whenever an at sign occurs
    anywhere in the post-scheme remainder, not only before the first
    slash; within the split, user and password follow the first-colon
    rule of the claim, and only when no at sign occurs at all are user
    and password absent with host and path taken from the full remainder. -/
theorem c3_amended (s : CStr) :
    (strchr '@' (restAfterScheme s) = none →
      (urlParse s).user = none ∧ (urlParse s).password = none ∧ restAfterAuth s = restAfterScheme s)
    ∧ (∀ a, strchr '@' (restAfterScheme s) = some a → strchr ':' (restAfterScheme s) = none →
        (urlParse s).user = some ((restAfterScheme s).take a) ∧ (urlParse s).password = none)
    ∧ (∀ a c, strchr '@' (restAfterScheme s) = some a → strchr ':' (restAfterScheme s) = some c → c < a →
        (urlParse s).user = some ((restAfterScheme s).take c)
        ∧ (urlParse s).password = some (((restAfterScheme s).drop (c + 1)).take (a - c - 1)))
    ∧ (∀ a c, strchr '@' (restAfterScheme s) = some a → strchr ':' (restAfterScheme s) = some c → ¬ c < a →
        (urlParse s).user = some ((restAfterScheme s).take a) ∧ (urlParse s).password = none) := by
  refine ⟨?_, ?_, ?_, ?_⟩
  · intro h
    refine ⟨?_, ?_, ?_⟩ <;> simp [urlParse, authSplit, restAfterAuth, h]
  · intro a ha hc
    constructor <;> simp [urlParse, authSplit, ha, hc]
  · intro a c ha hc hlt
    constructor <;> simp [urlParse, authSplit, ha, hc, hlt]
  · intro a c ha hc hlt
    constructor <;> simp [urlParse, authSplit, ha, hc, hlt]

/-- C3 amended witness: a user colon password at host URL takes the
    colon-before-at branch and yields that user and password. -/
theorem c3_amended_witness :
    strchr '@' (restAfterScheme ['u', ':', 'p', '@', 'h']) = some 3
    ∧ strchr ':' (restAfterScheme ['u', ':', 'p', '@', 'h']) = some 1
    ∧ (urlParse ['u', ':', 'p', '@', 'h']).user = some ['u']
    ∧ (urlParse ['u', ':', 'p', '@', 'h']).password = some ['p'] := by
  have h := (c3_amended ['u', ':', 'p', '@', 'h']).2.2.1 3 1 (by decide) (by decide) (by decide)
  exact ⟨by decide, by decide, h.1.trans (by decide), h.2.trans (by decide)⟩

/-- C4 counterexample: the port substring minus five parses to the
    negative value minus five, so the parsed port is not always a
    non-negative integer as the claim states. -/
theorem c4_counterexample :
    (urlParse ['h', ':', '-', '5']).port = -5 ∧ (urlParse ['h', ':', '-', '5']).port < 0 := by decide

/-- C4 amended: when no port substring is found the port keeps its
    minus-one sentinel; when one is found the port is atoi of it, which
    is non-negative unless the substring starts with a minus sign after
    optional whitespace, and is zero when no digit run starts it. -/
theorem c4_amended (s : CStr) :
    (strchr ':' (restAfterAuth s) = none → (urlParse s).port = -1)
    ∧ (∀ ppos cpos, strchr '/' (restAfterAuth s) = some ppos → strchr ':' (restAfterAuth s) = some cpos →
        ppos < cpos → (urlParse s).port = -1)
    ∧ (∀ cpos, strchr ':' (restAfterAuth s) = some cpos → strchr '/' (restAfterAuth s) = none →
        (urlParse s).port = atoi ((restAfterAuth s).drop (cpos + 1)))
    ∧ (∀ ppos cpos, strchr '/' (restAfterAuth s) = some ppos → strchr ':' (restAfterAuth s) = some cpos →
        ¬ ppos < cpos → (urlParse s).port = atoi ((restAfterAuth s).drop (cpos + 1)))
    ∧ (∀ t : CStr, (t.dropWhile isSpaceC).head? ≠ some '-' → 0 ≤ atoi t)
    ∧ (∀ t : CStr, headNotDigit (t.dropWhile isSpaceC) = true →
        (t.dropWhile isSpaceC).head? ≠ some '-' → (t.dropWhile isSpaceC).head? ≠ some '+' → atoi t = 0) := by
  refine ⟨?_, ?_, ?_, ?_, ?_, ?_⟩
  · intro h
    cases hp : strchr '/' (restAfterAuth s) <;> simp [urlParse, hostPortSplit, h, hp]
  · intro ppos cpos hp hc hlt
    simp [urlParse, hostPortSplit, hp, hc, hlt]
  · intro cpos hc hp
    simp [urlParse, hostPortSplit, hp, hc]
  · intro ppos cpos hp hc hlt
    simp [urlParse, hostPortSplit, hp, hc, hlt]
  · intro t h
    unfold atoi scanInt
    cases hd : t.dropWhile isSpaceC with
    | nil => simp [scanIntCore]
    | cons c rest =>
      rw [hd] at h
      simp at h
      simp [scanIntCore, h]
      by_cases hplus : c = '+'
      · simp [hplus]
        cases hsn : scanNat rest with
        | none => simp
        | some p => simp [Int.natCast_nonneg]
      · simp [hplus]
        cases hsn : scanNat (c :: rest) with
        | none => simp
        | some p => simp [Int.natCast_nonneg]
  · intro t hnd hm hp
    unfold atoi scanInt
    cases hd : t.dropWhile isSpaceC with
    | nil => simp [scanIntCore]
    | cons c rest =>
      rw [hd] at hnd hm hp
      simp at hm hp
      simp [headNotDigit] at hnd
      simp [scanIntCore, hm, hp, scanNat, hnd]

/-- C4 amended witness: a numeric port substring is parsed by atoi into
    the port field, here eighty. -/
theorem c4_amended_witness :
    strchr ':' (restAfterAuth ['h', ':', '8', '0']) = some 1
    ∧ strchr '/' (restAfterAuth ['h', ':', '8', '0']) = none
    ∧ (urlParse ['h', ':', '8', '0']).port = atoi ((restAfterAuth ['h', ':', '8', '0']).drop 2)
    ∧ (urlParse ['h', ':', '8', '0']).port = 80 := by
  have h := (c4_amended ['h', ':', '8', '0']).2.2.1 1 (by decide) (by decide)
  exact ⟨by decide, by decide, h, by decide⟩

/-- C10: the claim that six reserved bytes suffice for the port suffix
    fails - a six-digit port substring yields a positive port whose
    printed form needs seven bytes, so clean_url writes one byte past
    its allocation: the write (content plus final NUL) exceeds the
    allocated length. -/
theorem c10_port_overflow :
    0 < (urlParse ['h', ':', '1', '2', '3', '4', '5', '6']).port
    ∧ (urlParse ['h', ':', '1', '2', '3', '4', '5', '6']).port = 123456
    ∧ cleanUrlAllocLen (urlParse ['h', ':', '1', '2', '3', '4', '5', '6'])
        < (cleanUrlOfParts (urlParse ['h', ':', '1', '2', '3', '4', '5', '6'])).length + 1 := by
  decide

theorem headNotDigit_cons (c : Char) (x : CStr) : headNotDigit (c :: x) = !isDigitC c := rfl

theorem headNotDigit_append {rest x : CStr} (hr : headNotDigit rest = true)
    (hx : headNotDigit x = true) : headNotDigit (rest ++ x) = true := by
  cases rest with
  | nil => simpa using hx
  | cons c cs => simpa [headNotDigit] using hr

/-- C6: whenever the response is a status line of the form
    HTTP slash v1 dot v2 space code followed by more header text, then
    the first blank-line separator, then the body, parse_http_response
    returns that code as status, the bytes before the separator as
    headers and the bytes after it as body; in particular the concrete
    404 example of the specification parses as stated. -/
theorem c6_parse_response (v1 v2 code : Nat) (rest hB b : CStr)
    (hform : hB = httpMarkL ++ (natDigits v1 ++ (['.'] ++ (natDigits v2 ++ ([' '] ++ (natDigits code ++ rest))))))
    (hrest : headNotDigit rest = true)
    (hnosep : findSub crlfCrlfL hB = none)
    (hend : hB.drop (hB.length - 2) ≠ ['\r', '\n']) :
    parseHttpResponse (hB ++ (crlfCrlfL ++ b)) =
      { status_code := (code : Int), headers := some hB, body := some b }
    ∧ parseHttpResponse
        (['H', 'T', 'T', 'P', '/', '1', '.', '1', ' ', '4', '0', '4', ' ', 'N', 'o', 't', ' ', 'F', 'o', 'u', 'n', 'd', '\r', '\n', 'A', ':', ' ', 'B'] ++ (crlfCrlfL ++ ['h', 'e', 'l', 'l', 'o'])) =
      { status_code := 404,
        headers := some ['H', 'T', 'T', 'P', '/', '1', '.', '1', ' ', '4', '0', '4', ' ', 'N', 'o', 't', ' ', 'F', 'o', 'u', 'n', 'd', '\r', '\n', 'A', ':', ' ', 'B'],
        body := some ['h', 'e', 'l', 'l', 'o'] } := by
  refine ⟨?_, by decide⟩
  have hr : hB ++ (crlfCrlfL ++ b) =
      httpMarkL ++ (natDigits v1 ++ ('.' :: (natDigits v2 ++ (' ' :: (natDigits code ++ (rest ++ (crlfCrlfL ++ b))))))) := by
    rw [hform]
    simp [List.append_assoc]
  have hpre : httpMarkL.isPrefixOf (hB ++ (crlfCrlfL ++ b)) = true := by
    rw [hr]
    exact isPre_append_self _ _
  have hf0 : findSub httpMarkL (hB ++ (crlfCrlfL ++ b)) = some 0 := findSub_zero hpre
  have hsep : findSub crlfCrlfL (hB ++ (crlfCrlfL ++ b)) = some hB.length := findSub_crlf hB b hnosep hend
  have hdrop5 : (hB ++ (crlfCrlfL ++ b)).drop 5 =
      natDigits v1 ++ ('.' :: (natDigits v2 ++ (' ' :: (natDigits code ++ (rest ++ (crlfCrlfL ++ b)))))) := by
    rw [hr]
    exact List.drop_left' (by decide)
  have hnd3 : headNotDigit (rest ++ (crlfCrlfL ++ b)) = true :=
    headNotDigit_append hrest
      (by rw [show crlfCrlfL ++ b = '\r' :: ('\n' :: '\r' :: '\n' :: b) from rfl, headNotDigit_cons]; decide)
  have h1 := scanInt_natDigits v1 ('.' :: (natDigits v2 ++ (' ' :: (natDigits code ++ (rest ++ (crlfCrlfL ++ b))))))
    (by rw [headNotDigit_cons]; decide)
  have h2 := scanInt_natDigits v2 (' ' :: (natDigits code ++ (rest ++ (crlfCrlfL ++ b))))
    (by rw [headNotDigit_cons]; decide)
  have h3 : scanInt (' ' :: (natDigits code ++ (rest ++ (crlfCrlfL ++ b)))) = some ((code : Int), rest ++ (crlfCrlfL ++ b)) := by
    rw [scanInt_space]
    exact scanInt_natDigits code _ hnd3
  have hscan : scanStatusAfter ((hB ++ (crlfCrlfL ++ b)).drop 5) = (code : Int) := by
    rw [hdrop5]
    simp [scanStatusAfter, h1, h2, h3]
  have hhead : (hB ++ (crlfCrlfL ++ b)).take hB.length = hB := List.take_left hB (crlfCrlfL ++ b)
  have hbody : (hB ++ (crlfCrlfL ++ b)).drop (hB.length + 4) = b := by
    rw [← List.append_assoc]
    exact List.drop_left' (by simp [crlfCrlfL])
  simp [parseHttpResponse, hf0, hsep, hscan, hhead, hbody]

/-- C6 witness: the general clause applied to a concrete 200 response. -/
theorem c6_parse_response_witness :
    parseHttpResponse ((httpMarkL ++ (natDigits 1 ++ (['.'] ++ (natDigits 1 ++ ([' '] ++ (natDigits 200 ++ [])))))) ++ (crlfCrlfL ++ ['o', 'k'])) =
      { status_code := ((200 : Nat) : Int),
        headers := some (httpMarkL ++ (natDigits 1 ++ (['.'] ++ (natDigits 1 ++ ([' '] ++ (natDigits 200 ++ [])))))),
        body := some ['o', 'k'] } :=
  (c6_parse_response 1 1 200 [] _ ['o', 'k'] rfl (by decide) (by decide) (by decide)).1

/-- C7 counterexample: with a body of 4200 bytes the 4096-byte snprintf
    buffer truncates the request, so the bytes built by http_request are
    not the full serialized form the claim describes. -/
theorem c7_counterexample :
    sentRequest methodGET ['/'] ['h'] (some (List.replicate 4200 'a'))
      ≠ buildRequest methodGET ['/'] ['h'] (some (List.replicate 4200 'a')) := by
  intro h
  have hlen1 : (sentRequest methodGET ['/'] ['h'] (some (List.replicate 4200 'a'))).length ≤ 4095 := by
    rw [sentRequest, List.length_take]
    exact Nat.min_le_left _ _
  have hrep : (List.replicate (4200 : Nat) 'a').length = 4200 := List.length_replicate _ _
  have hlen2 : 4200 ≤ (buildRequest methodGET ['/'] ['h'] (some (List.replicate 4200 'a'))).length := by
    rw [buildRequest]
    simp only [List.length_append, Option.getD_some, hrep]
    omega
  rw [h] at hlen1
  omega

/-- C7 amended: whenever the formatted request fits in the 4096-byte
    buffer its bytes are exactly method, space, path, " HTTP/1.1",
    CRLF "Host: " host, CRLF "Connection: close", CRLF
    "Content-Length: " followed by the body length (zero when the body
    is absent) and a blank line, then the body; and the request built
    inside http_request uses the parsed path with slash as default and
    the parsed host. -/
theorem c7_amended :
    (∀ (method path host : CStr) (body : Option CStr),
      (buildRequest method path host body).length ≤ 4095 →
      sentRequest method path host body =
        method ++ reqPart1 ++ path ++ reqPart2 ++ host ++ reqPart3 ++
          natDigits (contentLen body) ++ reqPart4 ++ body.getD [])
    ∧ contentLen none = 0
    ∧ (∀ (env : NetEnv) (url method : CStr) (body : Option CStr) (useSsl : Bool) (sent : CStr) (r : Option HttpResponse),
        (httpRequest env url method body useSsl).1 = ReqOutcome.done sent r →
        sent = sentRequest method (pathStr (urlParse (cleanUrl url))) (hostStr (urlParse (cleanUrl url))) body) := by
  refine ⟨?_, rfl, ?_⟩
  · intro method path host body hlen
    exact List.take_of_length_le hlen
  · intro env url method body useSsl sent r h
    obtain ⟨b1, b2, b3, b4, b5, b6, b7, rd⟩ := env
    simp only [httpRequest, httpFinish, connectToHost, urlParse_host_isSome, clean_scheme_isSome] at h
    cases b1 <;> cases b2 <;> cases b3 <;> cases useSsl <;> cases b4 <;> cases b5 <;> cases b6 <;>
      simp_all

/-- C7 amended witness: the GET example of the specification, with path
    slash x, host h and no body: Content-Length is zero and the path
    segment is exactly slash x. -/
theorem c7_amended_witness :
    (buildRequest methodGET ['/', 'x'] ['h'] none).length ≤ 4095
    ∧ sentRequest methodGET ['/', 'x'] ['h'] none =
        ['G', 'E', 'T', ' ', '/', 'x', ' ', 'H', 'T', 'T', 'P', '/', '1', '.', '1', '\r', '\n',
         'H', 'o', 's', 't', ':', ' ', 'h', '\r', '\n',
         'C', 'o', 'n', 'n', 'e', 'c', 't', 'i', 'o', 'n', ':', ' ', 'c', 'l', 'o', 's', 'e', '\r', '\n',
         'C', 'o', 'n', 't', 'e', 'n', 't', '-', 'L', 'e', 'n', 'g', 't', 'h', ':', ' ', '0', '\r', '\n', '\r', '\n'] := by
  refine ⟨by decide, ?_⟩
  rw [c7_amended.1 methodGET ['/', 'x'] ['h'] none (by decide)]
  decide

theorem schemeSplit_append (a b : CStr) (ha : findSub sepL a = none) :
    schemeSplit (a ++ (sepL ++ b)) = (some a, b) := by
  have hf : findSub sepL (a ++ (sepL ++ b)) = some a.length := findSub_sep3 a b ha
  have e2 : (a ++ (sepL ++ b)).drop (a.length + 3) = b := by
    rw [← List.append_assoc]
    exact List.drop_left' (by simp [sepL])
  rw [schemeSplit, hf]
  simp only [List.take_left, e2]

theorem authSplit_append (us pw R2 : CStr) (husA : '@' ∉ us) (husC : ':' ∉ us) (hpwA : '@' ∉ pw) :
    authSplit (us ++ (':' :: (pw ++ ('@' :: R2)))) = (some us, some pw, R2) := by
  have hshape : us ++ (':' :: (pw ++ ('@' :: R2))) = (us ++ ':' :: pw) ++ '@' :: R2 := by simp
  have hat : strchr '@' (us ++ (':' :: (pw ++ ('@' :: R2)))) = some (us ++ ':' :: pw).length := by
    rw [hshape]
    refine strchr_append_first '@' R2 (us ++ ':' :: pw) ?_
    intro hmem
    rcases List.mem_append.1 hmem with h1 | h1
    · exact husA h1
    · rcases List.mem_cons.1 h1 with h2 | h2
      · exact absurd h2 (by decide)
      · exact hpwA h2
  have hcol : strchr ':' (us ++ (':' :: (pw ++ ('@' :: R2)))) = some us.length :=
    strchr_append_first ':' _ us husC
  have hlt : us.length < (us ++ ':' :: pw).length := by simp
  have e1 : (us ++ (':' :: (pw ++ ('@' :: R2)))).take us.length = us := List.take_left us _
  have e2 : ((us ++ (':' :: (pw ++ ('@' :: R2)))).drop (us.length + 1)).take ((us ++ ':' :: pw).length - us.length - 1) = pw := by
    have hd : us ++ (':' :: (pw ++ ('@' :: R2))) = (us ++ [':']) ++ (pw ++ ('@' :: R2)) := by simp
    rw [hd, List.drop_left' (by simp)]
    have harith : (us ++ ':' :: pw).length - us.length - 1 = pw.length := by simp
    rw [harith]
    exact List.take_left pw _
  have e3 : (us ++ (':' :: (pw ++ ('@' :: R2)))).drop ((us ++ ':' :: pw).length + 1) = R2 := by
    have hd : us ++ (':' :: (pw ++ ('@' :: R2))) = ((us ++ ':' :: pw) ++ ['@']) ++ R2 := by simp
    rw [hd]
    exact List.drop_left' (by simp; omega)
  simp only [authSplit, hat, hcol]
  rw [if_pos hlt, e1, e2, e3]

theorem hostPortSplit_full (h w : CStr) (port : Nat) (hhS : '/' ∉ h) (hhC : ':' ∉ h) :
    hostPortSplit (h ++ (':' :: (natDigits port ++ ('/' :: w)))) = (h, (port : Int)) := by
  have hcol : strchr ':' (h ++ (':' :: (natDigits port ++ ('/' :: w)))) = some h.length :=
    strchr_append_first ':' _ h hhC
  have hshape : h ++ (':' :: (natDigits port ++ ('/' :: w))) = (h ++ ':' :: natDigits port) ++ '/' :: w := by simp
  have hsl : strchr '/' (h ++ (':' :: (natDigits port ++ ('/' :: w)))) = some (h ++ ':' :: natDigits port).length := by
    rw [hshape]
    refine strchr_append_first '/' w _ ?_
    intro hmem
    rcases List.mem_append.1 hmem with h1 | h1
    · exact hhS h1
    · rcases List.mem_cons.1 h1 with h2 | h2
      · exact absurd h2 (by decide)
      · exact absurd (mem_natDigits_isDigit h2) (by decide)
  have hnlt : ¬ (h ++ ':' :: natDigits port).length < h.length := by simp
  have e1 : (h ++ (':' :: (natDigits port ++ ('/' :: w)))).take h.length = h := List.take_left h _
  have e2 : (h ++ (':' :: (natDigits port ++ ('/' :: w)))).drop (h.length + 1) = natDigits port ++ ('/' :: w) := by
    have hd : h ++ (':' :: (natDigits port ++ ('/' :: w))) = (h ++ [':']) ++ (natDigits port ++ ('/' :: w)) := by simp
    rw [hd]
    exact List.drop_left' (by simp)
  have e3 : atoi (natDigits port ++ ('/' :: w)) = (port : Int) :=
    atoi_natDigits port ('/' :: w) (by rw [headNotDigit_cons]; decide)
  simp [hostPortSplit, hcol, hsl, hnlt, e1, e2, e3]

theorem pathSplit_full (h pa t q f : CStr) (port : Nat)
    (hpa : pa = '/' :: t) (hhS : '/' ∉ h)
    (hpaQ : '?' ∉ pa) (hpaH : '#' ∉ pa) (hqH : '#' ∉ q) :
    pathSplit (h ++ (':' :: (natDigits port ++ (pa ++ ('?' :: (q ++ ('#' :: f))))))) = (some pa, some q, none) := by
  have hw : pa ++ ('?' :: (q ++ ('#' :: f))) = '/' :: (t ++ ('?' :: (q ++ ('#' :: f)))) := by
    rw [hpa]; rfl
  have hshape : h ++ (':' :: (natDigits port ++ (pa ++ ('?' :: (q ++ ('#' :: f)))))) =
      (h ++ ':' :: natDigits port) ++ '/' :: (t ++ ('?' :: (q ++ ('#' :: f)))) := by
    rw [hw]; simp
  have hsl : strchr '/' (h ++ (':' :: (natDigits port ++ (pa ++ ('?' :: (q ++ ('#' :: f))))))) =
      some (h ++ ':' :: natDigits port).length := by
    rw [hshape]
    refine strchr_append_first '/' _ _ ?_
    intro hmem
    rcases List.mem_append.1 hmem with h1 | h1
    · exact hhS h1
    · rcases List.mem_cons.1 h1 with h2 | h2
      · exact absurd h2 (by decide)
      · exact absurd (mem_natDigits_isDigit h2) (by decide)
  have hps : (h ++ (':' :: (natDigits port ++ (pa ++ ('?' :: (q ++ ('#' :: f))))))).drop (h ++ ':' :: natDigits port).length
      = pa ++ ('?' :: (q ++ ('#' :: f))) := by
    rw [hshape, List.drop_left, ← hw]
  have hq : strchr '?' (pa ++ ('?' :: (q ++ ('#' :: f)))) = some pa.length :=
    strchr_append_first '?' _ pa hpaQ
  have hshape2 : pa ++ ('?' :: (q ++ ('#' :: f))) = (pa ++ '?' :: q) ++ '#' :: f := by simp
  have hh : strchr '#' (pa ++ ('?' :: (q ++ ('#' :: f)))) = some (pa ++ '?' :: q).length := by
    rw [hshape2]
    refine strchr_append_first '#' f _ ?_
    intro hmem
    rcases List.mem_append.1 hmem with h1 | h1
    · exact hpaH h1
    · rcases List.mem_cons.1 h1 with h2 | h2
      · exact absurd h2 (by decide)
      · exact hqH h2
  have hlt : pa.length < (pa ++ '?' :: q).length := by simp
  have e1 : (pa ++ ('?' :: (q ++ ('#' :: f)))).take pa.length = pa := List.take_left pa _
  have e2 : ((pa ++ ('?' :: (q ++ ('#' :: f)))).drop (pa.length + 1)).take ((pa ++ '?' :: q).length - pa.length - 1) = q := by
    have hd : pa ++ ('?' :: (q ++ ('#' :: f))) = (pa ++ ['?']) ++ (q ++ ('#' :: f)) := by simp
    rw [hd, List.drop_left' (by simp)]
    have harith : (pa ++ '?' :: q).length - pa.length - 1 = q.length := by simp
    rw [harith]
    exact List.take_left q _
  simp [pathSplit, hsl, hps, hq, hh, hlt, e1, e2]

/-- C5 counterexample: parse then re-serialize of a full-form URL with
    userinfo, port, path, query and fragment loses the userinfo (never
    serialized by clean_url) and the fragment (never assigned by
    url_parse when a question mark precedes the hash), so the round
    trip is not equivalent up to the two default substitutions only. -/
theorem c5_counterexample :
    cleanUrl ['h', 't', 't', 'p', ':', '/', '/', 'u', ':', 'p', '@', 'h', ':', '9', '9', '/', 'p', '?', 'q', '#', 'f']
      = ['h', 't', 't', 'p', ':', '/', '/', 'h', ':', '9', '9', '/', 'p', '?', 'q']
    ∧ (urlParse ['h', 't', 't', 'p', ':', '/', '/', 'u', ':', 'p', '@', 'h', ':', '9', '9', '/', 'p', '?', 'q', '#', 'f']).fragment = none
    ∧ (urlParse (cleanUrl ['h', 't', 't', 'p', ':', '/', '/', 'u', ':', 'p', '@', 'h', ':', '9', '9', '/', 'p', '?', 'q', '#', 'f'])).user = none := by
  decide

/-- C5 amended: for a full-form URL whose components are separator-free
    in the places the parser splits, url_parse recovers scheme, user,
    password, host, port, path and query exactly, but leaves the
    fragment unset (the question mark precedes the hash), and clean_url
    re-serializes everything except userinfo and fragment, yielding
    scheme colon slash slash host colon port path question mark query. -/
theorem c5_amended (sc us pw h pa t q f : CStr) (port : Nat)
    (hsc : findSub sepL sc = none)
    (husA : '@' ∉ us) (husC : ':' ∉ us) (hpwA : '@' ∉ pw)
    (hhS : '/' ∉ h) (hhC : ':' ∉ h)
    (hport : 1 ≤ port)
    (hpa : pa = '/' :: t)
    (hpaQ : '?' ∉ pa) (hpaH : '#' ∉ pa) (hqH : '#' ∉ q) :
    urlParse (sc ++ (sepL ++ (us ++ (':' :: (pw ++ ('@' :: (h ++ (':' :: (natDigits port ++ (pa ++ ('?' :: (q ++ ('#' :: f))))))))))))) = { scheme := some sc, user := some us, password := some pw, host := some h, port := (port : Int), path := some pa, query := some q, fragment := none }
    ∧ cleanUrl (sc ++ (sepL ++ (us ++ (':' :: (pw ++ ('@' :: (h ++ (':' :: (natDigits port ++ (pa ++ ('?' :: (q ++ ('#' :: f))))))))))))) = sc ++ (sepL ++ (h ++ (':' :: (natDigits port ++ (pa ++ ('?' :: q)))))) := by
  have hs1 : schemeSplit (sc ++ (sepL ++ (us ++ (':' :: (pw ++ ('@' :: (h ++ (':' :: (natDigits port ++ (pa ++ ('?' :: (q ++ ('#' :: f))))))))))))) = (some sc, us ++ (':' :: (pw ++ ('@' :: (h ++ (':' :: (natDigits port ++ (pa ++ ('?' :: (q ++ ('#' :: f))))))))))) := schemeSplit_append sc _ hsc
  have hs2 : authSplit (us ++ (':' :: (pw ++ ('@' :: (h ++ (':' :: (natDigits port ++ (pa ++ ('?' :: (q ++ ('#' :: f))))))))))) = (some us, some pw, h ++ (':' :: (natDigits port ++ (pa ++ ('?' :: (q ++ ('#' :: f))))))) := authSplit_append us pw _ husA husC hpwA
  have hs3 : hostPortSplit (h ++ (':' :: (natDigits port ++ (pa ++ ('?' :: (q ++ ('#' :: f))))))) = (h, (port : Int)) := by
    have hw : pa ++ ('?' :: (q ++ ('#' :: f))) = '/' :: (t ++ ('?' :: (q ++ ('#' :: f)))) := by
      rw [hpa]; rfl
    rw [hw]
    exact hostPortSplit_full h _ port hhS hhC
  have hs4 : pathSplit (h ++ (':' :: (natDigits port ++ (pa ++ ('?' :: (q ++ ('#' :: f))))))) = (some pa, some q, none) :=
    pathSplit_full h pa t q f port hpa hhS hpaQ hpaH hqH
  have hparse : urlParse (sc ++ (sepL ++ (us ++ (':' :: (pw ++ ('@' :: (h ++ (':' :: (natDigits port ++ (pa ++ ('?' :: (q ++ ('#' :: f))))))))))))) = { scheme := some sc, user := some us, password := some pw, host := some h, port := (port : Int), path := some pa, query := some q, fragment := none } := by
    simp [urlParse, restAfterScheme, restAfterAuth, hs1, hs2, hs3, hs4]
  refine ⟨hparse, ?_⟩
  show cleanUrlOfParts (urlParse (sc ++ (sepL ++ (us ++ (':' :: (pw ++ ('@' :: (h ++ (':' :: (natDigits port ++ (pa ++ ('?' :: (q ++ ('#' :: f)))))))))))))) = _
  rw [hparse]
  have hp0 : (0 : Int) < (port : Int) := by exact_mod_cast hport
  simp [cleanUrlOfParts, schemeStr, cleanRest, hostStr, portStr, pathStr, queryStr, fragStr, hp0,
    Int.toNat_natCast]

/-- C5 amended witness: the general round-trip clause applied to a
    concrete full-form URL with port ninety-nine. -/
theorem c5_amended_witness :
    urlParse (['h', 't', 't', 'p'] ++ (sepL ++ (['u'] ++ (':' :: (['p'] ++ ('@' :: (['h'] ++ (':' :: (natDigits 99 ++ (['/', 'p'] ++ ('?' :: (['q'] ++ ('#' :: ['f']))))))))))))) = { scheme := some ['h', 't', 't', 'p'], user := some ['u'], password := some ['p'], host := some ['h'], port := ((99 : Nat) : Int), path := some ['/', 'p'], query := some ['q'], fragment := none }
    ∧ cleanUrl (['h', 't', 't', 'p'] ++ (sepL ++ (['u'] ++ (':' :: (['p'] ++ ('@' :: (['h'] ++ (':' :: (natDigits 99 ++ (['/', 'p'] ++ ('?' :: (['q'] ++ ('#' :: ['f']))))))))))))) = ['h', 't', 't', 'p'] ++ (sepL ++ (['h'] ++ (':' :: (natDigits 99 ++ (['/', 'p'] ++ ('?' :: ['q'])))))) :=
  c5_amended ['h', 't', 't', 'p'] ['u'] ['p'] ['h'] ['/', 'p'] ['p'] ['q'] ['f'] 99
    (by decide) (by decide) (by decide) (by decide) (by decide) (by decide)
    (by decide) (by decide) (by decide) (by decide) (by decide)
